import Mathlib

/-!
Verification of the ponder chain-synchronization core: shallow embedding of
the checkpoint ordering, interval difference, backfill planner, filter
matching engine and realtime orchestrator worker, with theorems for the
spec's testable properties.
-/

namespace Ponder

/-! ### Filter matching engine

Embedded from the matcher functions in the sync filter module
(`isLogFilterMatched`, `isCallTraceFilterMatched`, `isTransferFilterMatched`,
`isTransactionFilterMatched`, `isBlockFilterMatched`).  Hex strings are kept
as `String`; `hexToNumber (block.number)` is modelled by storing the decoded
`Nat` directly in `SyncBlock.number`.
-/

/-- JavaScript `s.toLowerCase()` on the hex strings used by the matchers:
lowercases every character. -/
def toLowerCase (s : String) : String := String.mk (s.data.map Char.toLower)

/-- Address specification of a source: absent, a literal address, a list of
addresses, or a factory (addresses discovered dynamically).  The factory
variant carries its event selector and its own address. -/
inductive AddressSpec where
  | noAddr : AddressSpec
  | single (a : String) : AddressSpec
  | multiple (addrs : List String) : AddressSpec
  | factory (eventSelector : String) (addr : String) : AddressSpec
deriving DecidableEq, Repr

/-- Embeds `isAddressFactory` from the source module. -/
def isAddressFactory : AddressSpec → Bool
  | .factory _ _ => true
  | _ => false

structure SyncBlock where
  number : Nat
deriving DecidableEq, Repr

structure SyncLog where
  address : String
  topics : List String
deriving DecidableEq, Repr

structure TraceAction where
  fromAddr : String
  toAddr : String
  input : String
deriving DecidableEq, Repr

structure SyncCallTrace where
  action : TraceAction
deriving DecidableEq, Repr

structure SyncTransaction where
  fromAddr : String
  toAddr : Option String
deriving DecidableEq, Repr

structure LogFilter where
  fromBlock : Nat
  toBlock : Option Nat
  address : AddressSpec
  topic0 : Option (List String)
  topic1 : Option (List String)
  topic2 : Option (List String)
  topic3 : Option (List String)
deriving DecidableEq, Repr

structure CallTraceFilter where
  fromBlock : Nat
  toBlock : Option Nat
  fromAddress : AddressSpec
  toAddress : AddressSpec
deriving DecidableEq, Repr

structure TransferFilter where
  fromBlock : Nat
  toBlock : Option Nat
  fromAddress : AddressSpec
  toAddress : AddressSpec
deriving DecidableEq, Repr

structure TransactionFilter where
  fromBlock : Nat
  toBlock : Option Nat
  fromAddress : AddressSpec
  toAddress : AddressSpec
deriving DecidableEq, Repr

structure BlockFilter where
  fromBlock : Nat
  toBlock : Option Nat
  interval : Nat
  offset : Nat
deriving DecidableEq, Repr

/-- The common block-range guard of every matcher:
`hexToNumber (block.number) < filter.fromBlock ||
 hexToNumber (block.number) > (filter.toBlock ?? Number.POSITIVE_INFINITY)`.
An absent `toBlock` behaves as positive infinity, so the second disjunct is
false. -/
def outOfRange (fromBlock : Nat) (toBlock : Option Nat) (n : Nat) : Bool :=
  decide (n < fromBlock) ||
    (match toBlock with
      | some tb => decide (n > tb)
      | none => false)

/-- The literal `"0x"`: empty call input data, marking a native transfer. -/
def hexEmpty : String := "0x"

/-- Concrete event selectors and addresses used by witnesses. -/
def selA : String := "0xa000"

def selB : String := "0xb000"

def selC : String := "0xc000"

def addrOne : String := "0x1111"

def addrTwo : String := "0x2222"

def addrThree : String := "0x3333"

/-- One RPC-level fragment of a log filter: a single optional address and a
single optional value per topic slot. -/
structure LogFilterFragment where
  address : Option String
  topic0 : Option String
  topic1 : Option String
  topic2 : Option String
  topic3 : Option String
deriving DecidableEq, Repr

/-- Modelled from the spec: the per-address options a fragment builder expands
an address specification into.  The sync fragment-building module is not
among the visible sources.  Per the spec, one source expands into multiple
underlying RPC-level filter fragments, and in the factory case address
matching is delegated to a dynamic address registry and not checked by the
matcher, so the factory case contributes a single fragment whose address
field is never consulted. -/
def addressOptions : AddressSpec → List (Option String)
  | .noAddr => [none]
  | .single a => [some (toLowerCase a)]
  | .multiple addrs => addrs.map (fun a => some (toLowerCase a))
  | .factory _ _ => [none]

/-- Modelled from the spec: the per-slot options for one topic slot, which is
either "don't care" (`none`), or a set of acceptable values, each yielding
one fragment. -/
def topicOptions : Option (List String) → List (Option String)
  | none => [none]
  | some ts => ts.map (fun t => some (toLowerCase t))

/-- Modelled from the spec: `buildLogFilterFragments` (the fragment-building
module is not among the visible sources).  Expands a log filter into the
cross product of its per-topic-combination and per-address fragments. -/
def buildLogFilterFragments (filter : LogFilter) : List LogFilterFragment :=
  (addressOptions filter.address).flatMap fun a =>
    (topicOptions filter.topic0).flatMap fun t0 =>
      (topicOptions filter.topic1).flatMap fun t1 =>
        (topicOptions filter.topic2).flatMap fun t2 =>
          (topicOptions filter.topic3).map fun t3 =>
            { address := a, topic0 := t0, topic1 := t1
              topic2 := t2, topic3 := t3 }

/-- One step of the matcher's topic test:
`fragment.topicN !== null && fragment.topicN !== log.topics[N]?.toLowerCase()`.
A missing log topic (`undefined` in JavaScript) never equals a configured
topic value. -/
def topicMismatch (ft : Option String) (lt : Option String) : Bool :=
  ft != none && ft != lt.map toLowerCase

/-- Embeds `isLogFilterMatched`. -/
def isLogFilterMatched (filter : LogFilter) (block : SyncBlock)
    (log : SyncLog) : Bool :=
  if outOfRange filter.fromBlock filter.toBlock block.number then false
  else
    (buildLogFilterFragments filter).any fun fragment =>
      if topicMismatch fragment.topic0 log.topics[0]? then false
      else if topicMismatch fragment.topic1 log.topics[1]? then false
      else if topicMismatch fragment.topic2 log.topics[2]? then false
      else if topicMismatch fragment.topic3 log.topics[3]? then false
      else if !(isAddressFactory filter.address) &&
          fragment.address != none &&
          fragment.address != some (toLowerCase log.address) then false
      else true

/-- Fragment of a trace-like filter: optional from- and to-address. -/
structure TraceFilterFragment where
  fromAddress : Option String
  toAddress : Option String
deriving DecidableEq, Repr

/-- Modelled from the spec: `buildTraceFilterFragments` (fragment-building
module not among the visible sources): cross product of the from- and
to-address options. -/
def buildTraceFilterFragments (filter : CallTraceFilter) :
    List TraceFilterFragment :=
  (addressOptions filter.fromAddress).flatMap fun f =>
    (addressOptions filter.toAddress).map fun t =>
      { fromAddress := f, toAddress := t }

/-- Modelled from the spec: `buildTransferFilterFragments` (fragment-building
module not among the visible sources): cross product of the from- and
to-address options. -/
def buildTransferFilterFragments (filter : TransferFilter) :
    List TraceFilterFragment :=
  (addressOptions filter.fromAddress).flatMap fun f =>
    (addressOptions filter.toAddress).map fun t =>
      { fromAddress := f, toAddress := t }

/-- Modelled from the spec: `buildTransactionFilterFragments`
(fragment-building module not among the visible sources): cross product of
the from- and to-address options. -/
def buildTransactionFilterFragments (filter : TransactionFilter) :
    List TraceFilterFragment :=
  (addressOptions filter.fromAddress).flatMap fun f =>
    (addressOptions filter.toAddress).map fun t =>
      { fromAddress := f, toAddress := t }

/-- Embeds `isCallTraceFilterMatched`.  The from-address check has no factory
guard in the source; the to-address check is skipped when the filter's
`toAddress` is a factory. -/
def isCallTraceFilterMatched (filter : CallTraceFilter) (block : SyncBlock)
    (callTrace : SyncCallTrace) : Bool :=
  if outOfRange filter.fromBlock filter.toBlock block.number then false
  else
    (buildTraceFilterFragments filter).any fun fragment =>
      if fragment.fromAddress != none &&
          fragment.fromAddress !=
            some (toLowerCase callTrace.action.fromAddr) then false
      else if !(isAddressFactory filter.toAddress) &&
          fragment.toAddress != none &&
          fragment.toAddress !=
            some (toLowerCase callTrace.action.toAddr) then false
      else true

/-- Embeds `isTransferFilterMatched`.  Note: in the source, BOTH address
checks are guarded by `isAddressFactory (filter.toAddress) === false` - the
from-address check is guarded by the TO-address being a non-factory, exactly
as written in the source file. -/
def isTransferFilterMatched (filter : TransferFilter) (block : SyncBlock)
    (callTrace : SyncCallTrace) : Bool :=
  if outOfRange filter.fromBlock filter.toBlock block.number then false
  else
    (buildTransferFilterFragments filter).any fun fragment =>
      if !(isAddressFactory filter.toAddress) &&
          fragment.fromAddress != none &&
          fragment.fromAddress !=
            some (toLowerCase callTrace.action.fromAddr) then false
      else if !(isAddressFactory filter.toAddress) &&
          fragment.toAddress != none &&
          fragment.toAddress !=
            some (toLowerCase callTrace.action.toAddr) then false
      else if callTrace.action.input != hexEmpty then false
      else true

/-- Embeds `isTransactionFilterMatched`.  As in the source, both address
checks are guarded by `isAddressFactory (filter.toAddress) === false`, and a
null transaction `to` fails a configured to-address. -/
def isTransactionFilterMatched (filter : TransactionFilter)
    (block : SyncBlock) (transaction : SyncTransaction) : Bool :=
  if outOfRange filter.fromBlock filter.toBlock block.number then false
  else
    (buildTransactionFilterFragments filter).any fun fragment =>
      if !(isAddressFactory filter.toAddress) &&
          fragment.fromAddress != none &&
          fragment.fromAddress !=
            some (toLowerCase transaction.fromAddr) then false
      else if !(isAddressFactory filter.toAddress) &&
          fragment.toAddress != none &&
          (transaction.toAddr == none ||
            fragment.toAddress != transaction.toAddr.map toLowerCase)
          then false
      else true

/-- JavaScript `a % n === 0` on numbers: for `n = 0` the remainder is `NaN`
and the strict comparison is false; otherwise the remainder is zero exactly
when `n` divides `a` (the sign of the JavaScript remainder follows the
dividend, which does not affect the zero test). -/
def jsRemIsZero (a : Int) (n : Int) : Bool :=
  if n = 0 then false else decide (a % n = 0)

/-- Embeds `isBlockFilterMatched`:
`(hexToNumber (block.number) - filter.offset) % filter.interval === 0`
after the common block-range guard. -/
def isBlockFilterMatched (filter : BlockFilter) (block : SyncBlock) : Bool :=
  if outOfRange filter.fromBlock filter.toBlock block.number then false
  else
    jsRemIsZero ((block.number : Int) - (filter.offset : Int))
      (filter.interval : Int)

/-! ### Range-guard lemmas shared by the matcher theorems -/

theorem outOfRange_of {n fb : Nat} {tb : Option Nat}
    (h : n < fb ∨ ∃ t, tb = some t ∧ t < n) : outOfRange fb tb n = true := by
  rcases h with h | ⟨t, htb, ht⟩
  · unfold outOfRange
    rw [Bool.or_eq_true]
    exact Or.inl (decide_eq_true h)
  · subst htb
    simp only [outOfRange, Bool.or_eq_true, decide_eq_true_eq]
    omega

theorem inRange_of {n fb : Nat} {tb : Option Nat} (h1 : fb ≤ n)
    (h2 : tb = none ∨ ∃ t, tb = some t ∧ n ≤ t) :
    outOfRange fb tb n = false := by
  have hlt : ¬ n < fb := by omega
  rcases h2 with h2 | ⟨t, htb, ht⟩
  · subst h2
    simp [outOfRange, hlt]
  · subst htb
    have hgt : ¬ n > t := by omega
    simp [outOfRange, hlt, hgt]

/-- C4: for every filter kind, an object whose block number is strictly below
`filter.fromBlock` or strictly above `filter.toBlock` (an absent `toBlock`
acting as positive infinity) is rejected by the corresponding matcher,
regardless of addresses, topics, or any other field. -/
theorem matchers_reject_out_of_range
    (block : SyncBlock) (lf : LogFilter) (log : SyncLog)
    (cf : CallTraceFilter) (trf : TransferFilter) (txf : TransactionFilter)
    (bf : BlockFilter) (callTrace : SyncCallTrace) (tx : SyncTransaction)
    (hl : block.number < lf.fromBlock ∨
      ∃ t, lf.toBlock = some t ∧ t < block.number)
    (hc : block.number < cf.fromBlock ∨
      ∃ t, cf.toBlock = some t ∧ t < block.number)
    (htr : block.number < trf.fromBlock ∨
      ∃ t, trf.toBlock = some t ∧ t < block.number)
    (htx : block.number < txf.fromBlock ∨
      ∃ t, txf.toBlock = some t ∧ t < block.number)
    (hb : block.number < bf.fromBlock ∨
      ∃ t, bf.toBlock = some t ∧ t < block.number) :
    isLogFilterMatched lf block log = false ∧
    isCallTraceFilterMatched cf block callTrace = false ∧
    isTransferFilterMatched trf block callTrace = false ∧
    isTransactionFilterMatched txf block tx = false ∧
    isBlockFilterMatched bf block = false := by
  refine ⟨?_, ?_, ?_, ?_, ?_⟩
  · simp [isLogFilterMatched, outOfRange_of hl]
  · simp [isCallTraceFilterMatched, outOfRange_of hc]
  · simp [isTransferFilterMatched, outOfRange_of htr]
  · simp [isTransactionFilterMatched, outOfRange_of htx]
  · simp [isBlockFilterMatched, outOfRange_of hb]

/-- Witness for C4 at block number 5 against filters starting at block 10. -/
theorem matchers_reject_out_of_range_witness :
    isLogFilterMatched ⟨10, none, .noAddr, none, none, none, none⟩ ⟨5⟩
      ⟨hexEmpty, []⟩ = false ∧
    isCallTraceFilterMatched ⟨10, none, .noAddr, .noAddr⟩ ⟨5⟩
      ⟨⟨hexEmpty, hexEmpty, hexEmpty⟩⟩ = false ∧
    isTransferFilterMatched ⟨10, none, .noAddr, .noAddr⟩ ⟨5⟩
      ⟨⟨hexEmpty, hexEmpty, hexEmpty⟩⟩ = false ∧
    isTransactionFilterMatched ⟨10, none, .noAddr, .noAddr⟩ ⟨5⟩
      ⟨hexEmpty, none⟩ = false ∧
    isBlockFilterMatched ⟨10, none, 1, 0⟩ ⟨5⟩ = false :=
  matchers_reject_out_of_range ⟨5⟩
    ⟨10, none, .noAddr, none, none, none, none⟩ ⟨hexEmpty, []⟩
    ⟨10, none, .noAddr, .noAddr⟩ ⟨10, none, .noAddr, .noAddr⟩
    ⟨10, none, .noAddr, .noAddr⟩ ⟨10, none, 1, 0⟩
    ⟨⟨hexEmpty, hexEmpty, hexEmpty⟩⟩ ⟨hexEmpty, none⟩
    (Or.inl (by decide)) (Or.inl (by decide)) (Or.inl (by decide))
    (Or.inl (by decide)) (Or.inl (by decide))

/-- C6: a log filter whose topic0 restriction is the two-element set
consisting of selectors A and B and whose address is unrestricted matches an
in-range log whose first topic is A, and rejects an in-range log whose first
topic is some third selector C outside the set (inequality taken after the
matcher's lowercase normalization). -/
theorem log_filter_topic0_set (A B C : String) (n fb : Nat)
    (tb : Option Nat) (logA logC : SyncLog) (h1 : fb ≤ n)
    (h2 : tb = none ∨ ∃ t, tb = some t ∧ n ≤ t)
    (hA : logA.topics[0]? = some A) (hC : logC.topics[0]? = some C)
    (hCA : toLowerCase C ≠ toLowerCase A)
    (hCB : toLowerCase C ≠ toLowerCase B) :
    isLogFilterMatched ⟨fb, tb, .noAddr, some [A, B], none, none, none⟩
      ⟨n⟩ logA = true ∧
    isLogFilterMatched ⟨fb, tb, .noAddr, some [A, B], none, none, none⟩
      ⟨n⟩ logC = false := by
  constructor
  · simp [isLogFilterMatched, inRange_of h1 h2, buildLogFilterFragments,
      addressOptions, topicOptions, topicMismatch, isAddressFactory, hA]
  · simp [isLogFilterMatched, inRange_of h1 h2, buildLogFilterFragments,
      addressOptions, topicOptions, topicMismatch, isAddressFactory, hC,
      Ne.symm hCA, Ne.symm hCB]

/-- Witness for C6 with three concrete distinct selectors. -/
theorem log_filter_topic0_set_witness :
    isLogFilterMatched
      ⟨0, none, .noAddr, some [selA, selB], none, none, none⟩ ⟨7⟩
      ⟨addrOne, [selA]⟩ = true ∧
    isLogFilterMatched
      ⟨0, none, .noAddr, some [selA, selB], none, none, none⟩ ⟨7⟩
      ⟨addrOne, [selC]⟩ = false :=
  log_filter_topic0_set selA selB selC 7 0 none ⟨addrOne, [selA]⟩
    ⟨addrOne, [selC]⟩ (by decide) (Or.inl rfl) rfl rfl
    (by decide) (by decide)

/-- C7: for an in-range block and a positive configured interval, the block
filter matches exactly when the interval divides the distance from the
offset, i.e. `(blockNumber - offset) mod interval = 0`. -/
theorem block_filter_modulus (bf : BlockFilter) (block : SyncBlock)
    (h1 : bf.fromBlock ≤ block.number)
    (h2 : bf.toBlock = none ∨ ∃ t, bf.toBlock = some t ∧ block.number ≤ t)
    (h3 : 0 < bf.interval) :
    isBlockFilterMatched bf block = true ↔
      ((block.number : Int) - (bf.offset : Int)) % (bf.interval : Int) = 0
    := by
  have hz : (bf.interval : Int) ≠ 0 := by
    simp only [ne_eq, Int.natCast_eq_zero]
    omega
  simp [isBlockFilterMatched, inRange_of h1 h2, jsRemIsZero, hz]

/-- Witness for C7: interval 3, offset 1, block 7. -/
theorem block_filter_modulus_witness :
    isBlockFilterMatched ⟨0, none, 3, 1⟩ ⟨7⟩ = true ↔
      ((7 : Int) - (1 : Int)) % (3 : Int) = 0 :=
  block_filter_modulus ⟨0, none, 3, 1⟩ ⟨7⟩ (by decide) (Or.inl rfl)
    (by decide)

/-! ### C5: the transfer matcher's from-address guard -/

/-- A transfer filter whose `fromAddress` is the literal address `0x1111` and
whose `toAddress` is a factory. -/
def transferGuardBugFilter : TransferFilter :=
  { fromBlock := 0, toBlock := none
    fromAddress := .single addrOne
    toAddress := .factory selA addrTwo }

/-- C5 (code bug): evaluating the source's `isTransferFilterMatched` at an
in-range native-transfer call trace whose `action.from` is `0x3333`, against
a filter whose `fromAddress` is the literal `0x1111` and whose `toAddress` is
a factory, yields TRUE: because the from-address check is guarded by
`isAddressFactory (filter.toAddress)`, the literal from-address restriction
is silently skipped whenever the to-address is a factory, contradicting the
spec's per-field address matching. -/
theorem transfer_filter_from_guard_bug :
    isTransferFilterMatched transferGuardBugFilter ⟨100⟩
      ⟨⟨addrThree, addrTwo, hexEmpty⟩⟩ = true := by
  decide

/-! ### Interval difference (backfill diffing)

`backfillSource` computes the required block intervals as
`p1_excluding_all ([requestedStartBlock, requestedEndBlock], cachedIntervals)`.
The interval utility itself lives in the common utils module, which is not
among the visible sources, so it is modelled from the spec below.
-/

/-- Modelled from the spec: the sub-intervals of the closed interval `p1` not
covered by the closed interval `p2` (the interval arithmetic helpers of
the common utils module are not among the visible sources).  Per the spec,
the difference must handle a covered interval that partially overlaps either
edge of the target, fully contains it (empty result), or is disjoint from it
(target unchanged): at most a left remainder and a right remainder survive. -/
def p1_excluding_p2 (p1 p2 : Nat × Nat) : List (Nat × Nat) :=
  (if p1.1 < p2.1 then [(p1.1, min p1.2 (p2.1 - 1))] else []) ++
    (if p2.2 < p1.2 then [(max p1.1 (p2.2 + 1), p1.2)] else [])

/-- Modelled from the spec: `p1_excluding_all (target, covered)` - the
sub-intervals of `target` not covered by any interval of `covered`, obtained
by excluding the covered intervals one after the other. -/
def p1_excluding_all (p1 : Nat × Nat) : List (Nat × Nat) → List (Nat × Nat)
  | [] => [p1]
  | p2 :: rest => (p1_excluding_p2 p1 p2).flatMap fun q =>
      p1_excluding_all q rest

theorem p1_excluding_p2_wf (p i : Nat × Nat) (hp : p.1 ≤ p.2) :
    ∀ q ∈ p1_excluding_p2 p i, q.1 ≤ q.2 ∧ p.1 ≤ q.1 ∧ q.2 ≤ p.2 := by
  intro q hq
  by_cases h1 : p.1 < i.1 <;> by_cases h2 : i.2 < p.2 <;>
    simp [p1_excluding_p2, h1, h2] at hq
  · rcases hq with rfl | rfl <;> (dsimp only; omega)
  · rcases hq with rfl; dsimp only; omega
  · rcases hq with rfl; dsimp only; omega

theorem p1_excluding_p2_cover (p i : Nat × Nat) (_hp : p.1 ≤ p.2) (b : Nat) :
    (∃ q ∈ p1_excluding_p2 p i, q.1 ≤ b ∧ b ≤ q.2) ↔
      (p.1 ≤ b ∧ b ≤ p.2 ∧ ¬ (i.1 ≤ b ∧ b ≤ i.2)) := by
  by_cases h1 : p.1 < i.1 <;> by_cases h2 : i.2 < p.2 <;>
    simp [p1_excluding_p2, h1, h2] <;> omega

theorem p1_excluding_all_wf (cs : List (Nat × Nat)) :
    ∀ p : Nat × Nat, p.1 ≤ p.2 →
      ∀ q ∈ p1_excluding_all p cs, q.1 ≤ q.2 ∧ p.1 ≤ q.1 ∧ q.2 ≤ p.2 := by
  induction cs with
  | nil =>
      intro p hp q hq
      simp [p1_excluding_all] at hq
      subst hq
      exact ⟨hp, le_refl _, le_refl _⟩
  | cons i rest ih =>
      intro p hp q hq
      simp only [p1_excluding_all, List.mem_flatMap] at hq
      obtain ⟨r, hr, hq⟩ := hq
      obtain ⟨hr1, hr2, hr3⟩ := p1_excluding_p2_wf p i hp r hr
      obtain ⟨h1, h2, h3⟩ := ih r hr1 q hq
      exact ⟨h1, le_trans hr2 h2, le_trans h3 hr3⟩

theorem p1_excluding_all_cover (cs : List (Nat × Nat)) :
    ∀ p : Nat × Nat, p.1 ≤ p.2 → ∀ b : Nat,
      ((∃ q ∈ p1_excluding_all p cs, q.1 ≤ b ∧ b ≤ q.2) ↔
        (p.1 ≤ b ∧ b ≤ p.2 ∧ ∀ i ∈ cs, ¬ (i.1 ≤ b ∧ b ≤ i.2))) := by
  induction cs with
  | nil =>
      intro p hp b
      simp [p1_excluding_all]
  | cons i rest ih =>
      intro p hp b
      constructor
      · rintro ⟨q, hq, hb⟩
        simp only [p1_excluding_all, List.mem_flatMap] at hq
        obtain ⟨r, hr, hq⟩ := hq
        have hrwf := p1_excluding_p2_wf p i hp r hr
        have hcov := (ih r hrwf.1 b).mp ⟨q, hq, hb⟩
        have hpi := (p1_excluding_p2_cover p i hp b).mp
          ⟨r, hr, hcov.1, hcov.2.1⟩
        refine ⟨hpi.1, hpi.2.1, fun j hj => ?_⟩
        rcases List.mem_cons.mp hj with rfl | hj
        · exact hpi.2.2
        · exact hcov.2.2 j hj
      · rintro ⟨hb1, hb2, hall⟩
        obtain ⟨r, hr, hrb⟩ := (p1_excluding_p2_cover p i hp b).mpr
          ⟨hb1, hb2, hall i (List.mem_cons_self i rest)⟩
        have hrwf := p1_excluding_p2_wf p i hp r hr
        obtain ⟨q, hq, hqb⟩ := (ih r hrwf.1 b).mpr
          ⟨hrb.1, hrb.2, fun j hj => hall j (List.mem_cons_of_mem i hj)⟩
        refine ⟨q, ?_, hqb⟩
        simp only [p1_excluding_all, List.mem_flatMap]
        exact ⟨r, hr, hq⟩

/-- C2: the interval difference returns intervals that are sub-intervals of
the requested interval `R`, are disjoint (blockwise) from every cached
interval, and together with the intersection of `R` and the cached set
reconstruct `R` exactly - every block of `R` lies in exactly one of the two
parts. -/
theorem interval_difference_correct (R : Nat × Nat) (C : List (Nat × Nat))
    (hR : R.1 ≤ R.2) :
    (∀ q ∈ p1_excluding_all R C, R.1 ≤ q.1 ∧ q.1 ≤ q.2 ∧ q.2 ≤ R.2) ∧
    (∀ q ∈ p1_excluding_all R C, ∀ i ∈ C, ∀ b : Nat,
      ¬ (q.1 ≤ b ∧ b ≤ q.2 ∧ i.1 ≤ b ∧ b ≤ i.2)) ∧
    (∀ b : Nat, (R.1 ≤ b ∧ b ≤ R.2) ↔
      ((∃ q ∈ p1_excluding_all R C, q.1 ≤ b ∧ b ≤ q.2) ∨
        ((R.1 ≤ b ∧ b ≤ R.2) ∧ ∃ i ∈ C, i.1 ≤ b ∧ b ≤ i.2))) ∧
    (∀ b : Nat, ¬ ((∃ q ∈ p1_excluding_all R C, q.1 ≤ b ∧ b ≤ q.2) ∧
      ((R.1 ≤ b ∧ b ≤ R.2) ∧ ∃ i ∈ C, i.1 ≤ b ∧ b ≤ i.2))) := by
  refine ⟨?_, ?_, ?_, ?_⟩
  · intro q hq
    have h := p1_excluding_all_wf C R hR q hq
    exact ⟨h.2.1, h.1, h.2.2⟩
  · rintro q hq i hi b ⟨hb1, hb2, hb3, hb4⟩
    have h := (p1_excluding_all_cover C R hR b).mp ⟨q, hq, hb1, hb2⟩
    exact h.2.2 i hi ⟨hb3, hb4⟩
  · intro b
    constructor
    · intro hb
      by_cases hcov : ∃ i ∈ C, i.1 ≤ b ∧ b ≤ i.2
      · exact Or.inr ⟨hb, hcov⟩
      · refine Or.inl ((p1_excluding_all_cover C R hR b).mpr
          ⟨hb.1, hb.2, fun i hi hib => hcov ⟨i, hi, hib⟩⟩)
    · rintro (h | h)
      · have := (p1_excluding_all_cover C R hR b).mp h
        exact ⟨this.1, this.2.1⟩
      · exact h.1
  · rintro b ⟨hdiff, _, i, hi, hib⟩
    have h := (p1_excluding_all_cover C R hR b).mp hdiff
    exact h.2.2 i hi hib

/-- Witness for C2: the spec's own example, requested range `[100, 200]`
against a cache containing `[120, 150]`. -/
theorem interval_difference_correct_witness :
    (∀ q ∈ p1_excluding_all (100, 200) [(120, 150)],
      100 ≤ q.1 ∧ q.1 ≤ q.2 ∧ q.2 ≤ 200) ∧
    (∀ q ∈ p1_excluding_all (100, 200) [(120, 150)],
      ∀ i ∈ [((120 : Nat), (150 : Nat))], ∀ b : Nat,
        ¬ (q.1 ≤ b ∧ b ≤ q.2 ∧ i.1 ≤ b ∧ b ≤ i.2)) ∧
    (∀ b : Nat, (100 ≤ b ∧ b ≤ 200) ↔
      ((∃ q ∈ p1_excluding_all (100, 200) [(120, 150)],
        q.1 ≤ b ∧ b ≤ q.2) ∨
        ((100 ≤ b ∧ b ≤ 200) ∧
          ∃ i ∈ [((120 : Nat), (150 : Nat))], i.1 ≤ b ∧ b ≤ i.2))) ∧
    (∀ b : Nat, ¬ ((∃ q ∈ p1_excluding_all (100, 200) [(120, 150)],
      q.1 ≤ b ∧ b ≤ q.2) ∧
      ((100 ≤ b ∧ b ≤ 200) ∧
        ∃ i ∈ [((120 : Nat), (150 : Nat))], i.1 ≤ b ∧ b ≤ i.2))) :=
  interval_difference_correct (100, 200) [(120, 150)] (by decide)

/-! ### Backfill planner: start-block check and chunking

Embedded from `backfillSource`
(src/packages/ponder/src/core/tasks/backfillSource.ts).
-/

/-- Embeds the task-enqueueing loop of `backfillSource` for one required
interval: while `fromBlock < endBlock`, push the task
`(fromBlock, toBlock)` where `toBlock = min (fromBlock + blockLimit)
endBlock`, then advance `fromBlock` to `toBlock + 1`. -/
def chunkGo (endBlock blockLimit fromBlock : Nat) : List (Nat × Nat) :=
  if fromBlock < endBlock then
    (fromBlock, min (fromBlock + blockLimit) endBlock) ::
      chunkGo endBlock blockLimit (min (fromBlock + blockLimit) endBlock + 1)
  else []
termination_by endBlock - fromBlock
decreasing_by simp_wf; omega

/-- The log-backfill tasks `backfillSource` enqueues for the required
interval `[startBlock, endBlock]`: the loop starts at
`fromBlock = startBlock`. -/
def backfillTasks (startBlock endBlock blockLimit : Nat) :
    List (Nat × Nat) :=
  chunkGo endBlock blockLimit startBlock

/-- The configuration error thrown when the configured start block is past
the chain head. -/
def startBlockError : String :=
  "Start block number is greater than latest block number. Are you sure the RPC endpoint is for the correct network?"

/-- Embeds the planning phase of `backfillSource`: fail fast when
`requestedStartBlock > latestBlockNumber` (before consulting the cached
intervals), otherwise compute the required intervals with
`p1_excluding_all` and chunk each with the loop above. -/
def backfillPlan (startBlock latestBlockNumber blockLimit : Nat)
    (cachedIntervals : List (Nat × Nat)) :
    Except String (List (Nat × Nat)) :=
  if startBlock > latestBlockNumber then .error startBlockError
  else .ok
    ((p1_excluding_all (startBlock, latestBlockNumber)
        cachedIntervals).flatMap
      fun i => backfillTasks i.1 i.2 blockLimit)

theorem chunkGo_eq (e L f : Nat) : chunkGo e L f =
    if f < e then
      (f, min (f + L) e) :: chunkGo e L (min (f + L) e + 1)
    else [] := by
  rw [chunkGo]

theorem chunkGo_bounds (e L : Nat) : ∀ n f, e - f ≤ n →
    ∀ t ∈ chunkGo e L f, f ≤ t.1 ∧ t.1 ≤ t.2 ∧ t.2 ≤ e ∧ t.2 - t.1 ≤ L := by
  intro n
  induction n with
  | zero =>
      intro f hf t ht
      rw [chunkGo_eq, if_neg (by omega)] at ht
      simp at ht
  | succ n ih =>
      intro f hf t ht
      rw [chunkGo_eq] at ht
      by_cases h : f < e
      · rw [if_pos h] at ht
        rcases List.mem_cons.mp ht with rfl | ht
        · dsimp only
          omega
        · have := ih (min (f + L) e + 1) (by omega) t ht
          omega
      · rw [if_neg h] at ht
        simp at ht

theorem chunkGo_mem (e L f : Nat) :
    ∀ t ∈ chunkGo e L f, f ≤ t.1 ∧ t.1 ≤ t.2 ∧ t.2 ≤ e ∧ t.2 - t.1 ≤ L :=
  chunkGo_bounds e L (e - f) f (le_refl _)

theorem chunkGo_pairwise (e L : Nat) : ∀ n f, e - f ≤ n →
    (chunkGo e L f).Pairwise (fun t1 t2 => t1.2 < t2.1) := by
  intro n
  induction n with
  | zero =>
      intro f hf
      rw [chunkGo_eq, if_neg (by omega)]
      exact List.Pairwise.nil
  | succ n ih =>
      intro f hf
      rw [chunkGo_eq]
      by_cases h : f < e
      · rw [if_pos h]
        refine List.Pairwise.cons ?_ (ih _ (by omega))
        intro t ht
        have := chunkGo_mem e L (min (f + L) e + 1) t ht
        dsimp only
        omega
      · rw [if_neg h]
        exact List.Pairwise.nil

theorem chunkGo_cover (e L : Nat) : ∀ n f, e - f ≤ n → f ≤ e → ∀ b : Nat,
    ((∃ t ∈ chunkGo e L f, t.1 ≤ b ∧ b ≤ t.2) ↔
      (f ≤ b ∧ b ≤ e ∧ ¬ (b = e ∧ (e - f) % (L + 1) = 0))) := by
  intro n
  induction n with
  | zero =>
      intro f hf hfe b
      have h0 : (e - f) % (L + 1) = 0 := by
        rw [show e - f = 0 by omega]
        exact Nat.zero_mod _
      rw [chunkGo_eq, if_neg (by omega), h0]
      simp
      omega
  | succ n ih =>
      intro f hf hfe b
      by_cases h : f < e
      · rw [chunkGo_eq, if_pos h]
        by_cases h2 : f + L < e
        · have hmod : (e - f) % (L + 1) = (e - (f + L + 1)) % (L + 1) := by
            rw [show e - f = (e - (f + L + 1)) + (L + 1) by omega]
            exact Nat.add_mod_right _ _
          rw [show min (f + L) e = f + L from by omega]
          have hih := ih (f + L + 1) (by omega) (by omega) b
          rw [hmod]
          constructor
          · rintro ⟨t, ht, hb⟩
            rcases List.mem_cons.mp ht with rfl | ht
            · dsimp only at hb
              generalize (e - (f + L + 1)) % (L + 1) = r
              omega
            · have := hih.mp ⟨t, ht, hb⟩
              generalize hr : (e - (f + L + 1)) % (L + 1) = r
              rw [hr] at this
              omega
          · rintro ⟨hb1, hb2, hb3⟩
            by_cases hble : b ≤ f + L
            · exact ⟨(f, f + L), List.mem_cons_self _ _, by dsimp only; omega⟩
            · obtain ⟨t, ht, htb⟩ := hih.mpr ⟨by omega, hb2, hb3⟩
              exact ⟨t, List.mem_cons_of_mem _ ht, htb⟩
        · have hmin : min (f + L) e = e := by omega
          have hrest : chunkGo e L (e + 1) = [] := by
            rw [chunkGo_eq, if_neg (by omega)]
          rw [hmin, hrest]
          have hmod : (e - f) % (L + 1) = e - f := Nat.mod_eq_of_lt (by omega)
          rw [hmod]
          simp
          omega
      · exact ih f (by omega) hfe b

/-- C3 (amended): for a required interval `[s, e]` with `s ≤ e`, the
enqueued log-backfill tasks lie within `[s, e]`, each spans at most
`blockLimit` blocks, they are pairwise disjoint, and they cover exactly the
blocks of `[s, e]` except that block `e` is left uncovered when `e - s` is
divisible by `blockLimit + 1` (in particular, no task is enqueued when
`s = e`). -/
theorem backfill_chunking (s e L : Nat) (hse : s ≤ e) :
    (∀ t ∈ backfillTasks s e L,
      s ≤ t.1 ∧ t.1 ≤ t.2 ∧ t.2 ≤ e ∧ t.2 - t.1 ≤ L) ∧
    (backfillTasks s e L).Pairwise (fun t1 t2 => t1.2 < t2.1) ∧
    (∀ b : Nat, (∃ t ∈ backfillTasks s e L, t.1 ≤ b ∧ b ≤ t.2) ↔
      (s ≤ b ∧ b ≤ e ∧ ¬ (b = e ∧ (e - s) % (L + 1) = 0))) :=
  ⟨chunkGo_mem e L s, chunkGo_pairwise e L (e - s) s (le_refl _),
    chunkGo_cover e L (e - s) s (le_refl _) hse⟩

/-- Counterexample to C3 as stated: with `startBlock = latestBlockNumber =
5` and an empty cache, the diff yields the required interval `[5, 5]`, but
the loop `while (fromBlock < endBlock)` never runs, so no enqueued task
covers block 5 - the claim's `s = e` edge case fails. -/
theorem backfill_chunking_cex :
    (5, 5) ∈ p1_excluding_all (5, 5) [] ∧
    ¬ ∃ t ∈ backfillTasks 5 5 10, t.1 ≤ 5 ∧ 5 ≤ t.2 := by
  constructor
  · simp [p1_excluding_all]
  · intro hex
    have h := (chunkGo_cover 5 10 0 5 (by omega) (by omega) 5).mp hex
    exact h.2.2 ⟨rfl, by omega⟩

/-- Witness for C3 (amended) at `s = 0`, `e = 10`, `blockLimit = 3`. -/
theorem backfill_chunking_witness :
    (∀ t ∈ backfillTasks 0 10 3,
      0 ≤ t.1 ∧ t.1 ≤ t.2 ∧ t.2 ≤ 10 ∧ t.2 - t.1 ≤ 3) ∧
    (backfillTasks 0 10 3).Pairwise (fun t1 t2 => t1.2 < t2.1) ∧
    (∀ b : Nat, (∃ t ∈ backfillTasks 0 10 3, t.1 ≤ b ∧ b ≤ t.2) ↔
      (0 ≤ b ∧ b ≤ 10 ∧ ¬ (b = 10 ∧ (10 - 0) % (3 + 1) = 0))) :=
  backfill_chunking 0 10 3 (by decide)

/-- C8: when the configured start block is past the chain head, the backfill
plan fails with the configuration error for EVERY cache content (the check
precedes the cache read, and an error plan enqueues no task); when the start
block is at or before the head, the plan succeeds and no such error is
raised. -/
theorem backfill_start_check (s l L : Nat) :
    (l < s → ∀ cached : List (Nat × Nat),
      backfillPlan s l L cached = .error startBlockError) ∧
    (s ≤ l → ∀ cached : List (Nat × Nat),
      ∃ tasks, backfillPlan s l L cached = .ok tasks) := by
  constructor
  · intro h cached
    simp only [backfillPlan]
    rw [if_pos (by omega)]
  · intro h cached
    refine ⟨(p1_excluding_all (s, l) cached).flatMap
      (fun i => backfillTasks i.1 i.2 L), ?_⟩
    simp only [backfillPlan]
    rw [if_neg (by omega)]

/-- Witness for C8: start 10 past head 5 errors for an arbitrary cache;
start 3 at or before head 8 succeeds. -/
theorem backfill_start_check_witness :
    backfillPlan 10 5 3 [(0, 2)] = .error startBlockError ∧
    ∃ tasks, backfillPlan 3 8 2 [] = .ok tasks :=
  ⟨(backfill_start_check 10 5 3).1 (by decide) [(0, 2)],
    (backfill_start_check 3 8 2).2 (by decide) []⟩

/-! ### Orchestrator realtime queue worker

Embedded from the `realtimeQueue` worker in the run module
(src/packages/core/src/bin/utils/run.ts).  The worker's effect on the
database and metadata store is modelled as the trace of operations it
performs; the per-block batches produced by `splitEvents` are carried
directly by the block event.
-/

/-- One per-block batch of a realtime block event: the block's checkpoint
and its (opaque) event payloads. -/
structure BlockBatch where
  checkpoint : String
  events : List String
deriving DecidableEq, Repr

/-- A realtime event consumed by the orchestrator's queue worker.  A block
event carries its per-block batches and the updated per-network status; a
reorg or finalize event carries a checkpoint. -/
inductive RealtimeEvent where
  | block (batches : List BlockBatch) (status : String) : RealtimeEvent
  | reorg (checkpoint : String) : RealtimeEvent
  | finalize (checkpoint : String) : RealtimeEvent
deriving DecidableEq, Repr

/-- An operation the worker performs against the indexing service, the
database or the metadata store. -/
inductive DbAction where
  | processEvents (checkpoint : String) : DbAction
  | complete (checkpoint : String) : DbAction
  | setStatus (status : String) : DbAction
  | removeTriggers : DbAction
  | revert (checkpoint : String) : DbAction
  | createTriggers : DbAction
  | finalizeCp (checkpoint : String) : DbAction
deriving DecidableEq, Repr

/-- True exactly for a `setStatus` operation. -/
def DbAction.isSetStatus : DbAction → Bool
  | .setStatus _ => true
  | _ => false

/-- The ordered trace of operations the realtime queue worker performs for
one event, embedding the switch in the worker: a block event handles each
per-block batch (process its events, then `database.complete` with that
block's checkpoint) in list order and finally sets the status; a reorg
event removes triggers, reverts to the checkpoint and recreates triggers; a
finalize event finalizes the checkpoint. -/
def realtimeWorkerTrace : RealtimeEvent → List DbAction
  | .block batches status =>
      (batches.flatMap fun b =>
        [.processEvents b.checkpoint, .complete b.checkpoint]) ++
        [.setStatus status]
  | .reorg checkpoint => [.removeTriggers, .revert checkpoint,
      .createTriggers]
  | .finalize checkpoint => [.finalizeCp checkpoint]

/-- The configuration the realtime queue is created with in the run module:
`createQueue (\x7b initialStart: true, browser: false, concurrency: 1,
worker \x7d)`. -/
structure QueueConfig where
  initialStart : Bool
  browser : Bool
  concurrency : Nat
deriving DecidableEq, Repr

/-- The realtime queue's configuration values from the source. -/
def realtimeQueueConfig : QueueConfig :=
  { initialStart := true, browser := false, concurrency := 1 }

theorem blockTrace_length (batches : List BlockBatch) :
    (batches.flatMap fun b =>
      [DbAction.processEvents b.checkpoint,
        DbAction.complete b.checkpoint]).length = 2 * batches.length := by
  induction batches with
  | nil => rfl
  | cons hd tl ih =>
      simp only [List.flatMap_cons, List.length_append, ih, List.length_cons,
        List.length_nil]
      omega

theorem blockTrace_getElem (batches : List BlockBatch) :
    ∀ i, (hi : i < batches.length) →
      ((batches.flatMap fun b =>
        [DbAction.processEvents b.checkpoint,
          DbAction.complete b.checkpoint])[2 * i]? =
        some (.processEvents batches[i].checkpoint)) ∧
      ((batches.flatMap fun b =>
        [DbAction.processEvents b.checkpoint,
          DbAction.complete b.checkpoint])[2 * i + 1]? =
        some (.complete batches[i].checkpoint)) := by
  induction batches with
  | nil => intro i hi; simp at hi
  | cons hd tl ih =>
      intro i hi
      cases i with
      | zero => simp
      | succ j =>
          have hj : j < tl.length := by simpa using Nat.lt_of_succ_lt_succ hi
          have h2 : 2 * (j + 1) = (2 * j + 1) + 1 := by omega
          have h3 : 2 * (j + 1) + 1 = (2 * j + 1 + 1) + 1 := by omega
          simp only [List.flatMap_cons, List.cons_append, List.nil_append,
            h2, h3, List.getElem?_cons_succ]
          have := ih j hj
          simpa using this

/-- C10: the realtime queue is constructed with concurrency 1, and for a
block event the worker's trace is strictly sequential per block: for any
two batches `i < j`, the `database.complete` call carrying batch `i`'s
checkpoint occurs at an earlier trace position than the processing of batch
`j`'s events. -/
theorem realtime_block_sequencing :
    realtimeQueueConfig.concurrency = 1 ∧
    (∀ (batches : List BlockBatch) (status : String) (i j : Nat)
      (hi : i < batches.length) (hj : j < batches.length), i < j →
      ∃ p q : Nat, p < q ∧
        (realtimeWorkerTrace (.block batches status))[p]? =
          some (DbAction.complete batches[i].checkpoint) ∧
        (realtimeWorkerTrace (.block batches status))[q]? =
          some (DbAction.processEvents batches[j].checkpoint)) := by
  refine ⟨rfl, ?_⟩
  intro batches status i j hi hj hij
  refine ⟨2 * i + 1, 2 * j, by omega, ?_, ?_⟩
  · rw [realtimeWorkerTrace]
    rw [List.getElem?_append_left (by rw [blockTrace_length]; omega)]
    exact (blockTrace_getElem batches i hi).2
  · rw [realtimeWorkerTrace]
    rw [List.getElem?_append_left (by rw [blockTrace_length]; omega)]
    exact (blockTrace_getElem batches j hj).1

/-- Witness for C10 with two concrete batches. -/
theorem realtime_block_sequencing_witness :
    realtimeQueueConfig.concurrency = 1 ∧
    (∃ p q : Nat, p < q ∧
      (realtimeWorkerTrace (.block [⟨selA, []⟩, ⟨selB, []⟩] addrOne))[p]? =
        some (DbAction.complete selA) ∧
      (realtimeWorkerTrace (.block [⟨selA, []⟩, ⟨selB, []⟩] addrOne))[q]? =
        some (DbAction.processEvents selB)) :=
  ⟨realtime_block_sequencing.1,
    realtime_block_sequencing.2 [⟨selA, []⟩, ⟨selB, []⟩] addrOne 0 1
      (by decide) (by decide) (by decide)⟩

/-- C9 (amended): the worker updates the per-network status record for
every block event (the `setStatus` call is the final operation of the block
trace), while reorg and finalize events complete without any status
update. -/
theorem status_update_per_event :
    (∀ (batches : List BlockBatch) (status : String),
      (realtimeWorkerTrace (.block batches status)).getLast? =
        some (.setStatus status)) ∧
    (∀ checkpoint : String, ∀ a ∈ realtimeWorkerTrace (.reorg checkpoint),
      a.isSetStatus = false) ∧
    (∀ checkpoint : String,
      ∀ a ∈ realtimeWorkerTrace (.finalize checkpoint),
        a.isSetStatus = false) := by
  refine ⟨?_, ?_, ?_⟩
  · intro batches status
    rw [realtimeWorkerTrace]
    exact List.getLast?_concat _
  · intro checkpoint a ha
    simp only [realtimeWorkerTrace, List.mem_cons,
      List.not_mem_nil, or_false] at ha
    rcases ha with rfl | rfl | rfl <;> rfl
  · intro checkpoint a ha
    simp only [realtimeWorkerTrace, List.mem_cons,
      List.not_mem_nil, or_false] at ha
    rcases ha with rfl
    rfl

/-- Witness for C9 (amended) at concrete events. -/
theorem status_update_per_event_witness :
    (realtimeWorkerTrace (.block [⟨selA, []⟩] addrOne)).getLast? =
      some (.setStatus addrOne) ∧
    DbAction.isSetStatus .removeTriggers = false ∧
    DbAction.isSetStatus (.finalizeCp selB) = false :=
  ⟨status_update_per_event.1 [⟨selA, []⟩] addrOne,
    status_update_per_event.2.1 selA .removeTriggers (by decide),
    status_update_per_event.2.2 selB (.finalizeCp selB) (by decide)⟩

/-- Counterexample to C9 as stated: a reorg event is applied by the worker
without any `setStatus` call in its trace - the status record is updated
only for block events. -/
theorem status_update_cex :
    ¬ ∃ a ∈ realtimeWorkerTrace (.reorg selC), a.isSetStatus = true := by
  decide

/-! ### Checkpoint

The checkpoint utility module (`encode`, `decode`, `compare`) is not among
the visible sources (only its callers are), so it is modelled from the
spec: an immutable fixed-width tuple, ordered lexicographically by field
order, serialized to a fixed-length lexicographically-sortable digit string
so that storage-layer ordering matches in-memory ordering.
-/

/-- Modelled from the spec: a checkpoint is the tuple
`(blockTimestamp: uint64, chainId: uint64, blockNumber: uint64,
transactionIndex: uint64, eventType: uint8, eventIndex: uint64)`. -/
structure Checkpoint where
  blockTimestamp : Nat
  chainId : Nat
  blockNumber : Nat
  transactionIndex : Nat
  eventType : Nat
  eventIndex : Nat
deriving DecidableEq, Repr

/-- The spec's field-width invariants: five uint64 fields and the uint8
event type. -/
def Checkpoint.wf (c : Checkpoint) : Prop :=
  c.blockTimestamp < 2 ^ 64 ∧ c.chainId < 2 ^ 64 ∧ c.blockNumber < 2 ^ 64 ∧
    c.transactionIndex < 2 ^ 64 ∧ c.eventType < 2 ^ 8 ∧ c.eventIndex < 2 ^ 64

instance (c : Checkpoint) : Decidable c.wf := by
  unfold Checkpoint.wf
  infer_instance

/-- Modelled from the spec: fixed-width zero-padded big-endian decimal digit
encoding of one field (`w` digits).  20 digits hold a uint64, 3 digits hold
a uint8. -/
def padDecDigits : Nat → Nat → List Nat
  | 0, _ => []
  | w + 1, n => n / 10 ^ w :: padDecDigits w (n % 10 ^ w)

/-- Modelled from the spec: `encode (parts) -> bytes`, the concatenation of
the fixed-width field encodings in field order. -/
def encodeCheckpoint (c : Checkpoint) : List Nat :=
  padDecDigits 20 c.blockTimestamp ++
    (padDecDigits 20 c.chainId ++
      (padDecDigits 20 c.blockNumber ++
        (padDecDigits 20 c.transactionIndex ++
          (padDecDigits 3 c.eventType ++ padDecDigits 20 c.eventIndex))))

/-- Reads a big-endian digit list back into a number. -/
def digitsToNat (ds : List Nat) : Nat :=
  ds.foldl (fun acc d => acc * 10 + d) 0

/-- Modelled from the spec: `decode (bytes) -> parts`; malformed input (wrong
length or an out-of-range digit) fails with a decode error, modelled as
`none`. -/
def decodeCheckpoint (bytes : List Nat) : Option Checkpoint :=
  if bytes.length = 103 ∧ ∀ d ∈ bytes, d < 10 then
    some
      { blockTimestamp := digitsToNat (bytes.take 20)
        chainId := digitsToNat ((bytes.drop 20).take 20)
        blockNumber := digitsToNat (((bytes.drop 20).drop 20).take 20)
        transactionIndex :=
          digitsToNat ((((bytes.drop 20).drop 20).drop 20).take 20)
        eventType :=
          digitsToNat (((((bytes.drop 20).drop 20).drop 20).drop 20).take 3)
        eventIndex :=
          digitsToNat
            ((((((bytes.drop 20).drop 20).drop 20).drop 20).drop 3).take 20) }
  else none

/-- Three-way comparison of one field. -/
def fieldCmp (a b : Nat) : Ordering :=
  if a < b then .lt else if a = b then .eq else .gt

/-- Modelled from the spec: `compare (a, b)` - lexicographic comparison of
the checkpoint tuples in field order. -/
def compareCheckpoints (a b : Checkpoint) : Ordering :=
  (fieldCmp a.blockTimestamp b.blockTimestamp).then
    ((fieldCmp a.chainId b.chainId).then
      ((fieldCmp a.blockNumber b.blockNumber).then
        ((fieldCmp a.transactionIndex b.transactionIndex).then
          ((fieldCmp a.eventType b.eventType).then
            (fieldCmp a.eventIndex b.eventIndex)))))

/-- Plain lexicographic byte comparison of two encodings. -/
def lexCompareBytes : List Nat → List Nat → Ordering
  | [], [] => .eq
  | [], _ :: _ => .lt
  | _ :: _, [] => .gt
  | a :: as, b :: bs => (fieldCmp a b).then (lexCompareBytes as bs)

theorem padDecDigits_length (w : Nat) : ∀ n, (padDecDigits w n).length = w := by
  induction w with
  | zero => intro n; rfl
  | succ w ih => intro n; simp [padDecDigits, ih]

theorem padDecDigits_lt_ten (w : Nat) : ∀ n, n < 10 ^ w →
    ∀ d ∈ padDecDigits w n, d < 10 := by
  induction w with
  | zero =>
      intro n hn d hd
      simp [padDecDigits] at hd
  | succ w ih =>
      intro n hn d hd
      have hp : 0 < 10 ^ w := pow_pos (by norm_num) w
      simp only [padDecDigits, List.mem_cons] at hd
      rcases hd with rfl | hd
      · have h10 : n < 10 * 10 ^ w := by
          rw [pow_succ] at hn
          omega
        exact (Nat.div_lt_iff_lt_mul hp).mpr (by omega)
      · exact ih (n % 10 ^ w) (Nat.mod_lt _ hp) d hd

theorem foldl_padDecDigits (w : Nat) : ∀ n a, n < 10 ^ w →
    (padDecDigits w n).foldl (fun acc d => acc * 10 + d) a =
      a * 10 ^ w + n := by
  induction w with
  | zero =>
      intro n a hn
      rw [pow_zero] at hn ⊢
      simp [padDecDigits]
      omega
  | succ w ih =>
      intro n a hn
      have hp : 0 < 10 ^ w := pow_pos (by norm_num) w
      simp only [padDecDigits, List.foldl_cons]
      rw [ih (n % 10 ^ w) _ (Nat.mod_lt _ hp)]
      have hpow : 10 ^ (w + 1) = 10 * 10 ^ w := by
        rw [pow_succ]
        ring
      have hdm : 10 ^ w * (n / 10 ^ w) + n % 10 ^ w = n :=
        Nat.div_add_mod n (10 ^ w)
      rw [hpow]
      conv_rhs => rw [← hdm]
      ring

theorem digitsToNat_padDecDigits (w n : Nat) (hn : n < 10 ^ w) :
    digitsToNat (padDecDigits w n) = n := by
  unfold digitsToNat
  rw [foldl_padDecDigits w n 0 hn]
  ring

theorem cmpThen_assoc (o1 o2 o3 : Ordering) :
    (o1.then o2).then o3 = o1.then (o2.then o3) := by
  cases o1 <;> rfl

theorem cmpThen_eq_lt {o1 o2 : Ordering} :
    o1.then o2 = .lt ↔ (o1 = .lt ∨ (o1 = .eq ∧ o2 = .lt)) := by
  cases o1 <;> simp [Ordering.then]

theorem cmpThen_eq_eq {o1 o2 : Ordering} :
    o1.then o2 = .eq ↔ (o1 = .eq ∧ o2 = .eq) := by
  cases o1 <;> simp [Ordering.then]

theorem cmpThen_eq_gt {o1 o2 : Ordering} :
    o1.then o2 = .gt ↔ (o1 = .gt ∨ (o1 = .eq ∧ o2 = .gt)) := by
  cases o1 <;> simp [Ordering.then]

theorem fieldCmp_lt {a b : Nat} : fieldCmp a b = .lt ↔ a < b := by
  unfold fieldCmp
  split_ifs with h1 h2 <;> simp <;> omega

theorem fieldCmp_eq {a b : Nat} : fieldCmp a b = .eq ↔ a = b := by
  unfold fieldCmp
  split_ifs with h1 h2 <;> simp <;> omega

theorem fieldCmp_gt {a b : Nat} : fieldCmp a b = .gt ↔ b < a := by
  unfold fieldCmp
  split_ifs with h1 h2 <;> simp <;> omega

theorem lexCompareBytes_append (xs : List Nat) : ∀ (ys as bs : List Nat),
    xs.length = ys.length →
    lexCompareBytes (xs ++ as) (ys ++ bs) =
      (lexCompareBytes xs ys).then (lexCompareBytes as bs) := by
  induction xs with
  | nil =>
      intro ys as bs h
      cases ys with
      | nil => simp [lexCompareBytes, Ordering.then]
      | cons y ys => simp at h
  | cons x xs ih =>
      intro ys as bs h
      cases ys with
      | nil => simp at h
      | cons y ys =>
          simp only [List.cons_append, lexCompareBytes, List.append_eq]
          rw [ih ys as bs (by simpa using h), cmpThen_assoc]

theorem lexCompareBytes_padDec (w : Nat) : ∀ n m, n < 10 ^ w → m < 10 ^ w →
    lexCompareBytes (padDecDigits w n) (padDecDigits w m) = fieldCmp n m := by
  induction w with
  | zero =>
      intro n m hn hm
      rw [pow_zero] at hn hm
      have hn0 : n = 0 := by omega
      have hm0 : m = 0 := by omega
      subst hn0
      subst hm0
      rfl
  | succ w ih =>
      intro n m hn hm
      have hp : 0 < 10 ^ w := pow_pos (by norm_num) w
      simp only [padDecDigits, lexCompareBytes]
      rw [ih (n % 10 ^ w) (m % 10 ^ w) (Nat.mod_lt _ hp) (Nat.mod_lt _ hp)]
      have h1 : 10 ^ w * (n / 10 ^ w) + n % 10 ^ w = n :=
        Nat.div_add_mod n (10 ^ w)
      have h2 : 10 ^ w * (m / 10 ^ w) + m % 10 ^ w = m :=
        Nat.div_add_mod m (10 ^ w)
      have hnr : n % 10 ^ w < 10 ^ w := Nat.mod_lt _ hp
      have hmr : m % 10 ^ w < 10 ^ w := Nat.mod_lt _ hp
      rcases Nat.lt_trichotomy (n / 10 ^ w) (m / 10 ^ w) with hd | hd | hd
      · have hmul : (n / 10 ^ w + 1) * 10 ^ w ≤ (m / 10 ^ w) * 10 ^ w :=
          Nat.mul_le_mul_right _ (by omega)
        have hnm : n < m := by
          calc n = 10 ^ w * (n / 10 ^ w) + n % 10 ^ w := h1.symm
            _ < 10 ^ w * (n / 10 ^ w) + 10 ^ w := by omega
            _ = (n / 10 ^ w + 1) * 10 ^ w := by ring
            _ ≤ (m / 10 ^ w) * 10 ^ w := hmul
            _ = 10 ^ w * (m / 10 ^ w) := by ring
            _ ≤ 10 ^ w * (m / 10 ^ w) + m % 10 ^ w := by omega
            _ = m := h2
        have hc1 : fieldCmp (n / 10 ^ w) (m / 10 ^ w) = .lt :=
          fieldCmp_lt.mpr hd
        have hc2 : fieldCmp n m = .lt := fieldCmp_lt.mpr hnm
        rw [hc1, hc2]
        rfl
      · have hc1 : fieldCmp (n / 10 ^ w) (m / 10 ^ w) = .eq :=
          fieldCmp_eq.mpr hd
        rw [hc1]
        have key : fieldCmp (n % 10 ^ w) (m % 10 ^ w) = fieldCmp n m := by
          rw [hd] at h1
          generalize hQ : 10 ^ w * (m / 10 ^ w) = Q at h1 h2
          rcases Nat.lt_trichotomy (n % 10 ^ w) (m % 10 ^ w) with h | h | h
          · have hnm : n < m := by omega
            rw [fieldCmp_lt.mpr h]
            exact (fieldCmp_lt.mpr hnm).symm
          · have hnm : n = m := by omega
            rw [fieldCmp_eq.mpr h]
            exact (fieldCmp_eq.mpr hnm).symm
          · have hnm : m < n := by omega
            rw [fieldCmp_gt.mpr h]
            exact (fieldCmp_gt.mpr hnm).symm
        rw [key]
        rfl
      · have hmul : (m / 10 ^ w + 1) * 10 ^ w ≤ (n / 10 ^ w) * 10 ^ w :=
          Nat.mul_le_mul_right _ (by omega)
        have hnm : m < n := by
          calc m = 10 ^ w * (m / 10 ^ w) + m % 10 ^ w := h2.symm
            _ < 10 ^ w * (m / 10 ^ w) + 10 ^ w := by omega
            _ = (m / 10 ^ w + 1) * 10 ^ w := by ring
            _ ≤ (n / 10 ^ w) * 10 ^ w := hmul
            _ = 10 ^ w * (n / 10 ^ w) := by ring
            _ ≤ 10 ^ w * (n / 10 ^ w) + n % 10 ^ w := by omega
            _ = n := h1
        have hc1 : fieldCmp (n / 10 ^ w) (m / 10 ^ w) = .gt :=
          fieldCmp_gt.mpr hd
        have hc2 : fieldCmp n m = .gt := fieldCmp_gt.mpr hnm
        rw [hc1, hc2]
        rfl

theorem compare_eq_iff (a b : Checkpoint) :
    compareCheckpoints a b = .eq ↔ a = b := by
  obtain ⟨a1, a2, a3, a4, a5, a6⟩ := a
  obtain ⟨b1, b2, b3, b4, b5, b6⟩ := b
  simp only [compareCheckpoints, cmpThen_eq_eq, fieldCmp_eq,
    Checkpoint.mk.injEq]

theorem compare_swap (a b : Checkpoint) :
    compareCheckpoints a b = .lt ↔ compareCheckpoints b a = .gt := by
  obtain ⟨a1, a2, a3, a4, a5, a6⟩ := a
  obtain ⟨b1, b2, b3, b4, b5, b6⟩ := b
  simp only [compareCheckpoints, cmpThen_eq_lt, cmpThen_eq_gt, fieldCmp_lt,
    fieldCmp_eq, fieldCmp_gt]
  omega

theorem compare_trans (a b c : Checkpoint)
    (h1 : compareCheckpoints a b = .lt)
    (h2 : compareCheckpoints b c = .lt) :
    compareCheckpoints a c = .lt := by
  obtain ⟨a1, a2, a3, a4, a5, a6⟩ := a
  obtain ⟨b1, b2, b3, b4, b5, b6⟩ := b
  obtain ⟨c1, c2, c3, c4, c5, c6⟩ := c
  simp only [compareCheckpoints, cmpThen_eq_lt, fieldCmp_lt, fieldCmp_eq]
    at h1 h2 ⊢
  omega

theorem compare_trichotomy (a b : Checkpoint) :
    compareCheckpoints a b = .lt ∨ compareCheckpoints a b = .eq ∨
      compareCheckpoints a b = .gt := by
  cases h : compareCheckpoints a b
  · exact Or.inl rfl
  · exact Or.inr (Or.inl rfl)
  · exact Or.inr (Or.inr rfl)

theorem decode_encode_of_wf (c : Checkpoint) (h : c.wf) :
    decodeCheckpoint (encodeCheckpoint c) = some c := by
  obtain ⟨c1, c2, c3, c4, c5, c6⟩ := c
  obtain ⟨h1, h2, h3, h4, h5, h6⟩ := h
  have e1 : c1 < 10 ^ 20 := lt_trans h1 (by norm_num)
  have e2 : c2 < 10 ^ 20 := lt_trans h2 (by norm_num)
  have e3 : c3 < 10 ^ 20 := lt_trans h3 (by norm_num)
  have e4 : c4 < 10 ^ 20 := lt_trans h4 (by norm_num)
  have e5 : c5 < 10 ^ 3 := lt_trans h5 (by norm_num)
  have e6 : c6 < 10 ^ 20 := lt_trans h6 (by norm_num)
  have l1 : (padDecDigits 20 c1).length = 20 := padDecDigits_length _ _
  have l2 : (padDecDigits 20 c2).length = 20 := padDecDigits_length _ _
  have l3 : (padDecDigits 20 c3).length = 20 := padDecDigits_length _ _
  have l4 : (padDecDigits 20 c4).length = 20 := padDecDigits_length _ _
  have l5 : (padDecDigits 3 c5).length = 3 := padDecDigits_length _ _
  have l6 : (padDecDigits 20 c6).length = 20 := padDecDigits_length _ _
  have hcond : (encodeCheckpoint ⟨c1, c2, c3, c4, c5, c6⟩).length = 103 ∧
      ∀ d ∈ encodeCheckpoint ⟨c1, c2, c3, c4, c5, c6⟩, d < 10 := by
    constructor
    · simp [encodeCheckpoint, List.length_append, l1, l2, l3, l4, l5, l6]
    · intro d hd
      simp only [encodeCheckpoint, List.mem_append] at hd
      rcases hd with hd | hd | hd | hd | hd | hd
      · exact padDecDigits_lt_ten 20 c1 e1 d hd
      · exact padDecDigits_lt_ten 20 c2 e2 d hd
      · exact padDecDigits_lt_ten 20 c3 e3 d hd
      · exact padDecDigits_lt_ten 20 c4 e4 d hd
      · exact padDecDigits_lt_ten 3 c5 e5 d hd
      · exact padDecDigits_lt_ten 20 c6 e6 d hd
  rw [decodeCheckpoint, if_pos hcond]
  simp only [encodeCheckpoint]
  rw [List.take_left' l1, List.drop_left' l1, List.take_left' l2,
    List.drop_left' l2, List.take_left' l3, List.drop_left' l3,
    List.take_left' l4, List.drop_left' l4, List.take_left' l5,
    List.drop_left' l5, List.take_of_length_le (le_of_eq l6)]
  rw [digitsToNat_padDecDigits 20 c1 e1, digitsToNat_padDecDigits 20 c2 e2,
    digitsToNat_padDecDigits 20 c3 e3, digitsToNat_padDecDigits 20 c4 e4,
    digitsToNat_padDecDigits 3 c5 e5, digitsToNat_padDecDigits 20 c6 e6]

theorem lex_encode_agrees (a b : Checkpoint) (ha : a.wf) (hb : b.wf) :
    lexCompareBytes (encodeCheckpoint a) (encodeCheckpoint b) =
      compareCheckpoints a b := by
  obtain ⟨a1, a2, a3, a4, a5, a6⟩ := a
  obtain ⟨b1, b2, b3, b4, b5, b6⟩ := b
  obtain ⟨ha1, ha2, ha3, ha4, ha5, ha6⟩ := ha
  obtain ⟨hb1, hb2, hb3, hb4, hb5, hb6⟩ := hb
  have ea1 : a1 < 10 ^ 20 := lt_trans ha1 (by norm_num)
  have ea2 : a2 < 10 ^ 20 := lt_trans ha2 (by norm_num)
  have ea3 : a3 < 10 ^ 20 := lt_trans ha3 (by norm_num)
  have ea4 : a4 < 10 ^ 20 := lt_trans ha4 (by norm_num)
  have ea5 : a5 < 10 ^ 3 := lt_trans ha5 (by norm_num)
  have ea6 : a6 < 10 ^ 20 := lt_trans ha6 (by norm_num)
  have eb1 : b1 < 10 ^ 20 := lt_trans hb1 (by norm_num)
  have eb2 : b2 < 10 ^ 20 := lt_trans hb2 (by norm_num)
  have eb3 : b3 < 10 ^ 20 := lt_trans hb3 (by norm_num)
  have eb4 : b4 < 10 ^ 20 := lt_trans hb4 (by norm_num)
  have eb5 : b5 < 10 ^ 3 := lt_trans hb5 (by norm_num)
  have eb6 : b6 < 10 ^ 20 := lt_trans hb6 (by norm_num)
  simp only [encodeCheckpoint]
  rw [lexCompareBytes_append _ _ _ _
      (by rw [padDecDigits_length, padDecDigits_length]),
    lexCompareBytes_append _ _ _ _
      (by rw [padDecDigits_length, padDecDigits_length]),
    lexCompareBytes_append _ _ _ _
      (by rw [padDecDigits_length, padDecDigits_length]),
    lexCompareBytes_append _ _ _ _
      (by rw [padDecDigits_length, padDecDigits_length]),
    lexCompareBytes_append _ _ _ _
      (by rw [padDecDigits_length, padDecDigits_length])]
  rw [lexCompareBytes_padDec 20 a1 b1 ea1 eb1,
    lexCompareBytes_padDec 20 a2 b2 ea2 eb2,
    lexCompareBytes_padDec 20 a3 b3 ea3 eb3,
    lexCompareBytes_padDec 20 a4 b4 ea4 eb4,
    lexCompareBytes_padDec 3 a5 b5 ea5 eb5,
    lexCompareBytes_padDec 20 a6 b6 ea6 eb6]
  rfl

/-- C1: for well-formed checkpoints, `compare` is a strict total order
(reflexively consistent with equality, antisymmetric via the lt/gt swap,
transitive, and total by trichotomy), encoding round-trips exactly through
decoding, and plain lexicographic byte comparison of two encodings returns
the same ordering as `compare`. -/
theorem checkpoint_contract (a b c : Checkpoint)
    (ha : a.wf) (hb : b.wf) (_hc : c.wf) :
    (compareCheckpoints a b = .eq ↔ a = b) ∧
    (compareCheckpoints a b = .lt ∨ compareCheckpoints a b = .eq ∨
      compareCheckpoints a b = .gt) ∧
    (compareCheckpoints a b = .lt ↔ compareCheckpoints b a = .gt) ∧
    (compareCheckpoints a b = .lt → compareCheckpoints b c = .lt →
      compareCheckpoints a c = .lt) ∧
    decodeCheckpoint (encodeCheckpoint a) = some a ∧
    lexCompareBytes (encodeCheckpoint a) (encodeCheckpoint b) =
      compareCheckpoints a b :=
  ⟨compare_eq_iff a b, compare_trichotomy a b, compare_swap a b,
    compare_trans a b c, decode_encode_of_wf a ha,
    lex_encode_agrees a b ha hb⟩

/-- Concrete checkpoints used by the C1 witness. -/
def ckA : Checkpoint := ⟨100, 1, 50, 2, 3, 7⟩

def ckB : Checkpoint := ⟨100, 2, 0, 0, 0, 0⟩

def ckC : Checkpoint := ⟨200, 1, 1, 1, 1, 1⟩

/-- Witness for C1 at three concrete well-formed checkpoints. -/
theorem checkpoint_contract_witness :
    (compareCheckpoints ckA ckB = .eq ↔ ckA = ckB) ∧
    (compareCheckpoints ckA ckB = .lt ∨ compareCheckpoints ckA ckB = .eq ∨
      compareCheckpoints ckA ckB = .gt) ∧
    (compareCheckpoints ckA ckB = .lt ↔ compareCheckpoints ckB ckA = .gt) ∧
    (compareCheckpoints ckA ckB = .lt → compareCheckpoints ckB ckC = .lt →
      compareCheckpoints ckA ckC = .lt) ∧
    decodeCheckpoint (encodeCheckpoint ckA) = some ckA ∧
    lexCompareBytes (encodeCheckpoint ckA) (encodeCheckpoint ckB) =
      compareCheckpoints ckA ckB :=
  checkpoint_contract ckA ckB ckC (by decide) (by decide) (by decide)

end Ponder
